import Mathlib

/-!
# Verification of `GB_add_phase2` (SuiteSparse:GraphBLAS)

Shallow embedding of `src/GraphBLAS/Source/GB_add_phase2.c`, the value
computation phase of the sparse additive merge `C = A + B` or `C⟨M⟩ = A + B`.

The data model follows the spec's per-vector view of a sparse matrix: each
vector is a list of `(row index, value)` pairs with strictly increasing row
indices.  Element values of every type are represented by `Int`; the four
typecasts of the generic worker become explicit `Int → Int` functions.

Parts of this phase live in files that are not in the repository snapshot
(`GB_add_template.c`, `GB_hypermatrix_prune.c`, `GB_binop_builtin.c`); those
are modelled from the spec, as marked on each definition.  Everything else is
translated directly from `GB_add_phase2.c`.
-/

namespace GBAdd

/-- Lookup of the value at row index `i` in a per-vector entry list
(first match, as in a scan of the sparse row-index array). -/
def lku (i : Nat) : List (Nat × Int) → Option Int
  | [] => none
  | (j, v) :: r => if i = j then some v else lku i r

/-- The data-model invariant on one vector: row indices strictly increasing. -/
def Srt (l : List (Nat × Int)) : Prop :=
  List.Pairwise (fun p q : Nat × Int => p.1 < q.1) l

instance (l : List (Nat × Int)) : Decidable (Srt l) := by
  unfold Srt; infer_instance

/-- The generic execution plan of `GB_add_phase2.c` lines 181–216: the binary
function `fadd` and the five cast functions used by the generic worker. -/
structure GenericPlan where
  fadd : Int → Int → Int
  cast_A_to_X : Int → Int
  cast_B_to_Y : Int → Int
  cast_A_to_C : Int → Int
  cast_B_to_C : Int → Int
  cast_Z_to_C : Int → Int

/-- Modelled from the spec: the per-vector two-pointer sorted merge of
`GB_add_template.c` (included at `GB_add_phase2.c` line 257 but not present
in the snapshot), specialised to one output vector with no mask.  A row index
only in `A` takes `GB_COPY_A_TO_C` (cast of A's value), only in `B` takes
`GB_COPY_B_TO_C`, and one present in both takes `GB_BINOP`:
`cast_Z_to_C (fadd (cast_A_to_X aij) (cast_B_to_Y bij))`. -/
def GB_add_template (g : GenericPlan) :
    List (Nat × Int) → List (Nat × Int) → List (Nat × Int)
  | [], Bs => Bs.map (fun p => (p.1, g.cast_B_to_C p.2))
  | a :: As, [] => (a :: As).map (fun p => (p.1, g.cast_A_to_C p.2))
  | a :: As, b :: Bs =>
    if a.1 < b.1 then
      (a.1, g.cast_A_to_C a.2) :: GB_add_template g As (b :: Bs)
    else if b.1 < a.1 then
      (b.1, g.cast_B_to_C b.2) :: GB_add_template g (a :: As) Bs
    else
      (a.1, g.cast_Z_to_C (g.fadd (g.cast_A_to_X a.2) (g.cast_B_to_Y b.2))) ::
        GB_add_template g As Bs
termination_by As Bs => As.length + Bs.length

/-- A row index below every key of `l` is absent from `l`. -/
theorem lku_eq_none_of_lt {i : Nat} {l : List (Nat × Int)}
    (h : ∀ p ∈ l, i < p.1) : lku i l = none := by
  induction l with
  | nil => rfl
  | cons p r ih =>
    have hp := h p (List.mem_cons_self p r)
    simp only [lku]
    rw [if_neg (by omega)]
    exact ih (fun q hq => h q (List.mem_cons_of_mem p hq))

theorem lku_map {i : Nat} {f : Int → Int} {l : List (Nat × Int)} :
    lku i (l.map (fun p => (p.1, f p.2))) = (lku i l).map f := by
  induction l with
  | nil => rfl
  | cons p r ih =>
    simp only [List.map, lku]
    by_cases h : i = p.1
    · simp [h]
    · simp [h, ih]

theorem Srt_cons {p : Nat × Int} {l : List (Nat × Int)} :
    Srt (p :: l) ↔ (∀ q ∈ l, p.1 < q.1) ∧ Srt l := List.pairwise_cons

/-- Lookup characterization of the two-pointer merge on sorted vectors. -/
theorem lku_GB_add_template (g : GenericPlan) (As Bs : List (Nat × Int)) (i : Nat)
    (hA : Srt As) (hB : Srt Bs) :
    lku i (GB_add_template g As Bs) =
      match lku i As, lku i Bs with
      | some a, some b =>
          some (g.cast_Z_to_C (g.fadd (g.cast_A_to_X a) (g.cast_B_to_Y b)))
      | some a, none => some (g.cast_A_to_C a)
      | none, some b => some (g.cast_B_to_C b)
      | none, none => none := by
  revert hA hB
  induction As, Bs using GB_add_template.induct g with
  | case1 Bs =>
    intro _ _
    cases h : lku i Bs <;> simp [GB_add_template, lku, lku_map, h]
  | case2 a As =>
    intro _ _
    have hm : GB_add_template g (a :: As) [] =
        (a :: As).map (fun p => (p.1, g.cast_A_to_C p.2)) := by
      rw [GB_add_template]
    rw [hm, lku_map]
    cases h : lku i (a :: As) <;> rfl
  | case3 a As b Bs hlt ih =>
    intro hA hB
    have hmerge : GB_add_template g (a :: As) (b :: Bs) =
        (a.1, g.cast_A_to_C a.2) :: GB_add_template g As (b :: Bs) := by
      rw [GB_add_template]; simp [hlt]
    rw [hmerge]
    by_cases hi : i = a.1
    · have hBnone : lku i (b :: Bs) = none := by
        apply lku_eq_none_of_lt
        intro p hp
        rcases List.mem_cons.mp hp with h | h
        · subst h; omega
        · have := (Srt_cons.mp hB).1 p h; omega
      have hAsome : lku i (a :: As) = some a.2 := by simp [lku, hi]
      rw [hAsome, hBnone]
      simp [lku, hi]
    · rw [lku, if_neg hi]
      rw [ih (Srt_cons.mp hA).2 hB]
      have hhd : lku i (a :: As) = lku i As := by simp [lku, hi]
      rw [hhd]
  | case4 a As b Bs hnlt hlt ih =>
    intro hA hB
    have hmerge : GB_add_template g (a :: As) (b :: Bs) =
        (b.1, g.cast_B_to_C b.2) :: GB_add_template g (a :: As) Bs := by
      rw [GB_add_template]; simp [hnlt, hlt]
    rw [hmerge]
    by_cases hi : i = b.1
    · have hAnone : lku i (a :: As) = none := by
        apply lku_eq_none_of_lt
        intro p hp
        rcases List.mem_cons.mp hp with h | h
        · subst h; omega
        · have := (Srt_cons.mp hA).1 p h; omega
      have hBsome : lku i (b :: Bs) = some b.2 := by simp [lku, hi]
      rw [hAnone, hBsome]
      simp [lku, hi]
    · rw [lku, if_neg hi]
      rw [ih hA (Srt_cons.mp hB).2]
      have hhd : lku i (b :: Bs) = lku i Bs := by simp [lku, hi]
      rw [hhd]
  | case5 a As b Bs hnlt hnlt2 ih =>
    intro hA hB
    have heq : a.1 = b.1 := by omega
    have hmerge : GB_add_template g (a :: As) (b :: Bs) =
        (a.1, g.cast_Z_to_C (g.fadd (g.cast_A_to_X a.2) (g.cast_B_to_Y b.2))) ::
          GB_add_template g As Bs := by
      rw [GB_add_template]; simp [hnlt, hnlt2]
    rw [hmerge]
    by_cases hi : i = a.1
    · simp [lku, hi, heq]
    · rw [lku, if_neg hi]
      rw [ih (Srt_cons.mp hA).2 (Srt_cons.mp hB).2]
      have hhdA : lku i (a :: As) = lku i As := by simp [lku, hi]
      have hhdB : lku i (b :: Bs) = lku i Bs := by
        simp [lku]
        intro h
        exact absurd (h.trans heq.symm) hi
      rw [hhdA, hhdB]

/-- **C1.** For each output vector, `GB_add_phase2`'s generic worker produces
exactly the union of A's and B's row indices, with value `cast_A_to_C` of A's
value when the index is only in A, `cast_B_to_C` of B's value when only in B,
and `cast_Z_to_C (fadd (cast_A_to_X aij) (cast_B_to_Y bij))` when in both. -/
theorem C1_merge_union (g : GenericPlan) (As Bs : List (Nat × Int)) (i : Nat)
    (hA : Srt As) (hB : Srt Bs) :
    lku i (GB_add_template g As Bs) =
      match lku i As, lku i Bs with
      | some a, some b =>
          some (g.cast_Z_to_C (g.fadd (g.cast_A_to_X a) (g.cast_B_to_Y b)))
      | some a, none => some (g.cast_A_to_C a)
      | none, some b => some (g.cast_B_to_C b)
      | none, none => none :=
  lku_GB_add_template g As Bs i hA hB

/-- The plan built when `op` is a plain integer addition with no typecasting
(each `GB_cast_factory` call returns the identity conversion). -/
def addPlan : GenericPlan :=
  { fadd := fun a b => a + b
    cast_A_to_X := id, cast_B_to_Y := id
    cast_A_to_C := id, cast_B_to_C := id, cast_Z_to_C := id }

/-- Witness for C1 at the spec's concrete scenario: A(:,0) = {1:10},
B(:,0) = {1:5, 3:7}, operator add, so C(1,0) = 15. -/
theorem C1_merge_union_witness :
    lku 1 (GB_add_template addPlan [(1, 10)] [(1, 5), (3, 7)]) = some 15 :=
  (C1_merge_union addPlan [(1, 10)] [(1, 5), (3, 7)] 1
    (by decide) (by decide)).trans (by decide)

/-- Every key of the merge output comes from a key of `As` or of `Bs`. -/
theorem GB_add_template_mem_keys (g : GenericPlan) :
    ∀ As Bs : List (Nat × Int), ∀ p ∈ GB_add_template g As Bs,
      (∃ q ∈ As, q.1 = p.1) ∨ ∃ q ∈ Bs, q.1 = p.1 := by
  intro As Bs
  induction As, Bs using GB_add_template.induct g with
  | case1 Bs =>
    intro p hp
    rw [GB_add_template] at hp
    rcases List.mem_map.mp hp with ⟨q, hq, rfl⟩
    exact Or.inr ⟨q, hq, rfl⟩
  | case2 a As =>
    intro p hp
    rw [GB_add_template] at hp
    rcases List.mem_map.mp hp with ⟨q, hq, rfl⟩
    exact Or.inl ⟨q, hq, rfl⟩
  | case3 a As b Bs hlt ih =>
    intro p hp
    rw [GB_add_template, if_pos hlt] at hp
    rcases List.mem_cons.mp hp with rfl | hp'
    · exact Or.inl ⟨a, List.mem_cons_self a As, rfl⟩
    · rcases ih p hp' with ⟨q, hq, hq1⟩ | h
      · exact Or.inl ⟨q, List.mem_cons_of_mem a hq, hq1⟩
      · exact Or.inr h
  | case4 a As b Bs hnlt hlt ih =>
    intro p hp
    rw [GB_add_template, if_neg hnlt, if_pos hlt] at hp
    rcases List.mem_cons.mp hp with rfl | hp'
    · exact Or.inr ⟨b, List.mem_cons_self b Bs, rfl⟩
    · rcases ih p hp' with h | ⟨q, hq, hq1⟩
      · exact Or.inl h
      · exact Or.inr ⟨q, List.mem_cons_of_mem b hq, hq1⟩
  | case5 a As b Bs hnlt hnlt2 ih =>
    intro p hp
    rw [GB_add_template, if_neg hnlt, if_neg hnlt2] at hp
    rcases List.mem_cons.mp hp with rfl | hp'
    · exact Or.inl ⟨a, List.mem_cons_self a As, rfl⟩
    · rcases ih p hp' with ⟨q, hq, hq1⟩ | ⟨q, hq, hq1⟩
      · exact Or.inl ⟨q, List.mem_cons_of_mem a hq, hq1⟩
      · exact Or.inr ⟨q, List.mem_cons_of_mem b hq, hq1⟩

/-- **C5.** When both inputs satisfy the strictly-ascending row-index
invariant, the two-pointer merge emits each output vector's row indices in
strictly ascending order — no sorting pass is applied to the output. -/
theorem C5_merge_sorted (g : GenericPlan) (As Bs : List (Nat × Int))
    (hA : Srt As) (hB : Srt Bs) : Srt (GB_add_template g As Bs) := by
  revert hA hB
  induction As, Bs using GB_add_template.induct g with
  | case1 Bs =>
    intro _ hB
    rw [GB_add_template]
    exact List.Pairwise.map _ (fun p q h => h) hB
  | case2 a As =>
    intro hA _
    rw [GB_add_template]
    exact List.Pairwise.map _ (fun p q h => h) hA
  | case3 a As b Bs hlt ih =>
    intro hA hB
    have hmerge : GB_add_template g (a :: As) (b :: Bs) =
        (a.1, g.cast_A_to_C a.2) :: GB_add_template g As (b :: Bs) := by
      rw [GB_add_template]; simp [hlt]
    rw [hmerge]
    refine Srt_cons.mpr ⟨?_, ih (Srt_cons.mp hA).2 hB⟩
    intro q hq
    show a.1 < q.1
    rcases GB_add_template_mem_keys g As (b :: Bs) q hq with ⟨r, hr, hr1⟩ | ⟨r, hr, hr1⟩
    · have := (Srt_cons.mp hA).1 r hr; omega
    · rcases List.mem_cons.mp hr with heq | hr'
      · subst heq; omega
      · have := (Srt_cons.mp hB).1 r hr'; omega
  | case4 a As b Bs hnlt hlt ih =>
    intro hA hB
    have hmerge : GB_add_template g (a :: As) (b :: Bs) =
        (b.1, g.cast_B_to_C b.2) :: GB_add_template g (a :: As) Bs := by
      rw [GB_add_template]; simp [hnlt, hlt]
    rw [hmerge]
    refine Srt_cons.mpr ⟨?_, ih hA (Srt_cons.mp hB).2⟩
    intro q hq
    show b.1 < q.1
    rcases GB_add_template_mem_keys g (a :: As) Bs q hq with ⟨r, hr, hr1⟩ | ⟨r, hr, hr1⟩
    · rcases List.mem_cons.mp hr with heq | hr'
      · subst heq; omega
      · have := (Srt_cons.mp hA).1 r hr'; omega
    · have := (Srt_cons.mp hB).1 r hr; omega
  | case5 a As b Bs hnlt hnlt2 ih =>
    intro hA hB
    have hmerge : GB_add_template g (a :: As) (b :: Bs) =
        (a.1, g.cast_Z_to_C (g.fadd (g.cast_A_to_X a.2) (g.cast_B_to_Y b.2))) ::
          GB_add_template g As Bs := by
      rw [GB_add_template]; simp [hnlt, hnlt2]
    rw [hmerge]
    refine Srt_cons.mpr ⟨?_, ih (Srt_cons.mp hA).2 (Srt_cons.mp hB).2⟩
    intro q hq
    show a.1 < q.1
    rcases GB_add_template_mem_keys g As Bs q hq with ⟨r, hr, hr1⟩ | ⟨r, hr, hr1⟩
    · have := (Srt_cons.mp hA).1 r hr; omega
    · have := (Srt_cons.mp hB).1 r hr; omega

/-- Witness for C5: merging the spec's concrete vectors yields a strictly
ascending output vector. -/
theorem C5_merge_sorted_witness :
    Srt (GB_add_template addPlan [(1, 10), (2, 20)] [(1, 5), (3, 7)]) :=
  C5_merge_sorted addPlan [(1, 10), (2, 20)] [(1, 5), (3, 7)] (by decide) (by decide)

/-- The generic plan built for `op == NULL` (`GB_add_phase2.c` lines 186–201):
the implicit `GB_SECOND` combinator with every cast the type-preserving copy
`GB_copy_user_user`. -/
def nullOpPlan : GenericPlan :=
  { fadd := fun _ b => b
    cast_A_to_X := id, cast_B_to_Y := id
    cast_A_to_C := id, cast_B_to_C := id, cast_Z_to_C := id }

/-- Modelled from the spec: the merge of `GB_add_template.c` (not in the
snapshot) in `op == NULL` mode.  A row index present in both operands is a
precondition violation — the caller guaranteed disjoint patterns — and is
signalled as an internal-consistency failure instead of producing a value. -/
def GB_add_template_noop :
    List (Nat × Int) → List (Nat × Int) → Except String (List (Nat × Int))
  | [], Bs => Except.ok Bs
  | a :: As, [] => Except.ok (a :: As)
  | a :: As, b :: Bs =>
    if a.1 < b.1 then
      (GB_add_template_noop As (b :: Bs)).map (fun r => a :: r)
    else if b.1 < a.1 then
      (GB_add_template_noop (a :: As) Bs).map (fun r => b :: r)
    else
      Except.error "GB_add_phase2: op is NULL but A and B intersect"
termination_by As Bs => As.length + Bs.length

/-- A successful lookup means the row index occurs among the keys. -/
theorem lku_some_key_mem {i : Nat} {v : Int} :
    ∀ {l : List (Nat × Int)}, lku i l = some v → ∃ p ∈ l, p.1 = i := by
  intro l
  induction l with
  | nil => intro h; exact absurd h (by simp [lku])
  | cons p r ih =>
    intro h
    rw [lku] at h
    by_cases hi : i = p.1
    · exact ⟨p, List.mem_cons_self p r, hi.symm⟩
    · rw [if_neg hi] at h
      obtain ⟨q, hq, hq1⟩ := ih h
      exact ⟨q, List.mem_cons_of_mem p hq, hq1⟩

/-- On key-disjoint operands the no-op merge succeeds and returns exactly the
generic merge of the two vectors under the copy plan. -/
theorem noop_ok_of_disjoint :
    ∀ As Bs : List (Nat × Int), (∀ p ∈ As, ∀ q ∈ Bs, p.1 ≠ q.1) →
      GB_add_template_noop As Bs =
        Except.ok (GB_add_template nullOpPlan As Bs) := by
  intro As Bs
  induction As, Bs using GB_add_template_noop.induct with
  | case1 Bs =>
    intro _
    rw [GB_add_template_noop, GB_add_template]
    exact congrArg Except.ok (List.map_id Bs).symm
  | case2 a As =>
    intro _
    rw [GB_add_template_noop, GB_add_template]
    exact congrArg Except.ok (List.map_id (a :: As)).symm
  | case3 a As b Bs hlt ih =>
    intro hd
    rw [GB_add_template_noop, if_pos hlt,
      ih (fun p hp q hq => hd p (List.mem_cons_of_mem a hp) q hq)]
    rw [GB_add_template, if_pos hlt]
    rfl
  | case4 a As b Bs hnlt hlt ih =>
    intro hd
    rw [GB_add_template_noop, if_neg hnlt, if_pos hlt,
      ih (fun p hp q hq => hd p hp q (List.mem_cons_of_mem b hq))]
    rw [GB_add_template, if_neg hnlt, if_pos hlt]
    rfl
  | case5 a As b Bs hnlt hnlt2 =>
    intro hd
    exact absurd (hd a (List.mem_cons_self a As) b (List.mem_cons_self b Bs))
      (by omega)

/-- A row index present in both sorted operands forces the no-op merge to
reach the equal-keys branch and fail. -/
theorem noop_error_of_intersect :
    ∀ As Bs : List (Nat × Int), Srt As → Srt Bs →
      ∀ i a b, lku i As = some a → lku i Bs = some b →
        ∃ e, GB_add_template_noop As Bs = Except.error e := by
  intro As Bs
  induction As, Bs using GB_add_template_noop.induct with
  | case1 Bs =>
    intro _ _ i a b ha _
    exact absurd ha (by simp [lku])
  | case2 a As =>
    intro _ _ i x y _ hb
    exact absurd hb (by simp [lku])
  | case3 a As b Bs hlt ih =>
    intro hA hB i x y hx hy
    by_cases hi : i = a.1
    · have : lku i (b :: Bs) = none := by
        apply lku_eq_none_of_lt
        intro p hp
        rcases List.mem_cons.mp hp with rfl | hp'
        · omega
        · have := (Srt_cons.mp hB).1 p hp'; omega
      rw [this] at hy; exact absurd hy (by simp)
    · rw [lku, if_neg hi] at hx
      obtain ⟨e, he⟩ := ih (Srt_cons.mp hA).2 hB i x y hx hy
      refine ⟨e, ?_⟩
      rw [GB_add_template_noop, if_pos hlt, he]
      rfl
  | case4 a As b Bs hnlt hlt ih =>
    intro hA hB i x y hx hy
    by_cases hi : i = b.1
    · have : lku i (a :: As) = none := by
        apply lku_eq_none_of_lt
        intro p hp
        rcases List.mem_cons.mp hp with rfl | hp'
        · omega
        · have := (Srt_cons.mp hA).1 p hp'; omega
      rw [this] at hx; exact absurd hx (by simp)
    · rw [lku, if_neg hi] at hy
      obtain ⟨e, he⟩ := ih hA (Srt_cons.mp hB).2 i x y hx hy
      refine ⟨e, ?_⟩
      rw [GB_add_template_noop, if_neg hnlt, if_pos hlt, he]
      rfl
  | case5 a As b Bs hnlt hnlt2 =>
    intro _ _ _ _ _ _ _
    exact ⟨_, by rw [GB_add_template_noop, if_neg hnlt, if_neg hnlt2]⟩

/-- **C2.** With no operator supplied: on per-vector key-disjoint operands the
result is the union of A's and B's entries (each key keeps its unique
operand's value); if some row index is present in both operands, the call
signals the internal-consistency failure instead of producing a value. -/
theorem C2_noop_merge (As Bs : List (Nat × Int)) (hA : Srt As) (hB : Srt Bs) :
    ((∀ p ∈ As, ∀ q ∈ Bs, p.1 ≠ q.1) →
      ∃ r, GB_add_template_noop As Bs = Except.ok r ∧
        ∀ i, lku i r =
          match lku i As with
          | some a => some a
          | none => lku i Bs) ∧
    (∀ i a b, lku i As = some a → lku i Bs = some b →
      ∃ e, GB_add_template_noop As Bs = Except.error e) := by
  constructor
  · intro hd
    refine ⟨GB_add_template nullOpPlan As Bs, noop_ok_of_disjoint As Bs hd, ?_⟩
    intro i
    rw [lku_GB_add_template nullOpPlan As Bs i hA hB]
    cases hx : lku i As with
    | some a =>
      cases hy : lku i Bs with
      | some b =>
        obtain ⟨p, hp, hp1⟩ := lku_some_key_mem hx
        obtain ⟨q, hq, hq1⟩ := lku_some_key_mem hy
        exact absurd (hp1.trans hq1.symm) (hd p hp q hq)
      | none => rfl
    | none => cases hy : lku i Bs <;> rfl
  · exact noop_error_of_intersect As Bs hA hB

/-- Witness for C2 at the spec's concrete scenarios: disjoint
A(:,0) = {0:1}, B(:,0) = {1:2} merge to {0:1, 1:2}; intersecting
A(:,0) = {0:1}, B(:,0) = {0:2} signal the failure. -/
theorem C2_noop_merge_witness :
    (∃ r, GB_add_template_noop [(0, 1)] [(1, 2)] = Except.ok r ∧
      ∀ i, lku i r =
        match lku i [((0 : Nat), (1 : Int))] with
        | some a => some a
        | none => lku i [(1, 2)]) ∧
    (∃ e, GB_add_template_noop [(0, 1)] [(0, 2)] = Except.error e) :=
  ⟨(C2_noop_merge [(0, 1)] [(1, 2)] (by decide) (by decide)).1 (by decide),
   (C2_noop_merge [(0, 1)] [(0, 2)] (by decide) (by decide)).2 0 1 2
     (by decide) (by decide)⟩

/-- Modelled from the spec: the mask check of `GB_add_template.c` — a
candidate row index qualifies only if the (non-complemented) mask vector
`Ms` has an entry at that row and, when the `Mask_struct` flag is false,
that mask entry's value is also truthy (nonzero). -/
def maskQualify (Mask_struct : Bool) (Ms : List (Nat × Int)) (i : Nat) : Bool :=
  match lku i Ms with
  | none => false
  | some mij => Mask_struct || decide (mij ≠ 0)

/-- Modelled from the spec: the masked merge of `GB_add_template.c` — each
candidate produced by the unmasked two-pointer merge is emitted exactly when
the mask qualifies its row index. -/
def GB_add_template_masked (g : GenericPlan) (Mask_struct : Bool)
    (Ms As Bs : List (Nat × Int)) : List (Nat × Int) :=
  (GB_add_template g As Bs).filter (fun p => maskQualify Mask_struct Ms p.1)

/-- Looking up a key in a key-filtered list: present iff the key passes the
filter and is present in the original. -/
theorem lku_filter_key (q : Nat → Bool) (l : List (Nat × Int)) (i : Nat) :
    lku i (l.filter (fun p => q p.1)) = if q i then lku i l else none := by
  induction l with
  | nil => simp [lku]
  | cons p r ih =>
    by_cases hq : q p.1
    · rw [List.filter_cons_of_pos (by simpa using hq)]
      by_cases hi : i = p.1
      · subst hi; simp [lku, hq]
      · rw [lku, if_neg hi, ih, lku, if_neg hi]
    · rw [List.filter_cons_of_neg (by simpa using hq)]
      by_cases hi : i = p.1
      · subst hi; simp [lku, hq, ih]
      · rw [ih, lku, if_neg hi]

/-- **C4.** With a non-complemented mask, an output entry exists at a row
index iff one would exist in the unmasked merge of A and B and the mask has
an entry there whose value is truthy unless `Mask_struct` is set; a row
index absent from the mask is suppressed even if present in A or B. -/
theorem C4_mask_semantics (g : GenericPlan) (Mask_struct : Bool)
    (Ms As Bs : List (Nat × Int)) (i : Nat) :
    (∃ v, lku i (GB_add_template_masked g Mask_struct Ms As Bs) = some v) ↔
      ((∃ v, lku i (GB_add_template g As Bs) = some v) ∧
        ∃ m, lku i Ms = some m ∧ (Mask_struct = true ∨ m ≠ 0)) := by
  unfold GB_add_template_masked
  rw [lku_filter_key]
  unfold maskQualify
  cases hm : lku i Ms with
  | none => simp
  | some m =>
    by_cases hs : Mask_struct
    · simp [hs]
    · by_cases hz : m = 0
      · simp [hs, hz]
      · simp [hs, hz]

/-- The `GrB_Info` return codes this phase can produce or observe. -/
inductive GrB_Info
  | GrB_SUCCESS
  | GrB_OUT_OF_MEMORY
  | GrB_NO_VALUE
deriving DecidableEq

/-- A binary operator as the resolver sees it: whether its opcode belongs to
the fixed catalog of built-in combinators of the switch factory, and its
operand/result type codes. -/
structure GB_BinaryOp where
  builtin : Bool
  xcode : Nat
  ycode : Nat
  zcode : Nat
deriving DecidableEq

/-- Modelled from the spec: `GB_binop_builtin` (not in the snapshot) —
recognises whether the operator is one of the fixed catalog of built-in
combinators; an absent operator is never recognised. -/
def GB_binop_builtin : Option GB_BinaryOp → Bool
  | none => false
  | some o => o.builtin

/-- The result type code reported by `GB_binop_builtin` (meaningful only
when the operator is recognised as builtin). -/
def binop_zcode : Option GB_BinaryOp → Nat
  | none => 0
  | some o => o.zcode

/-- Which worker `GB_add_phase2` executes. -/
inductive WorkerKind
  | specialized
  | generic
deriving DecidableEq

/-- The kernel dispatch of `GB_add_phase2.c` lines 140–177: `done` becomes
true exactly when `GB_binop_builtin` recognises the operator and
`ccode == zcode`, in which case the switch factory launches a specialized
kernel; the generic cast-and-call worker runs iff `!done`. -/
def add_phase2_worker (op : Option GB_BinaryOp) (ccode : Nat) : WorkerKind :=
  let done := GB_binop_builtin op && (ccode == binop_zcode op)
  if done then WorkerKind.specialized else WorkerKind.generic

/-- **C6.** A specialized kernel is selected iff the operator is recognised
as a builtin combinator and the output type code equals the operator's result
type code; in every other case — including `op == NULL` — the generic worker
runs. -/
theorem C6_dispatch (op : Option GB_BinaryOp) (ccode : Nat) :
    (add_phase2_worker op ccode = WorkerKind.specialized ↔
      ∃ o, op = some o ∧ o.builtin = true ∧ ccode = o.zcode) ∧
    add_phase2_worker none ccode = WorkerKind.generic := by
  constructor
  · cases op with
    | none => simp [add_phase2_worker, GB_binop_builtin]
    | some o =>
      by_cases hb : o.builtin <;> by_cases hc : ccode = o.zcode <;>
        simp [add_phase2_worker, GB_binop_builtin, binop_zcode, hb, hc]
  · simp [add_phase2_worker, GB_binop_builtin]

/-- Observable events of one `GB_add_phase2` invocation, in program order. -/
inductive Ev
  | setChandleNull            -- line 99: (*Chandle) = NULL
  | createC (ok : Bool)       -- line 109: GB_create
  | freeCp                    -- line 115: GB_FREE (Cp)
  | freeCh                    -- line 116: GB_FREE (Ch)
  | transplantCp              -- line 121: C->p = Cp
  | transplantCh              -- line 126: C->h = Ch
  | setMagic                  -- line 133: C->magic = GB_MAGIC
  | runWorkers                -- lines 140–258: switch factory / generic worker
  | pruneCall (ok : Bool)     -- line 264: GB_hypermatrix_prune
  | freeC                     -- line 268: GB_MATRIX_FREE (&C)
  | setChandleC               -- line 278: (*Chandle) = C
  | ret (info : GrB_Info)
deriving DecidableEq

/-- The exact event sequence of `GB_add_phase2.c`, as a function of whether
the two fallible calls succeed and of `C_is_hyper` (`Ch != NULL`).  On the
create-failure path `GB_FREE (Ch)` is a no-op when `Ch` is NULL, so its
event appears only when `C_is_hyper`. -/
def GB_add_phase2_events (createOk pruneOk C_is_hyper : Bool) : List Ev :=
  [Ev.setChandleNull, Ev.createC createOk] ++
    (if createOk = false then
      [Ev.freeCp] ++ (if C_is_hyper then [Ev.freeCh] else []) ++
        [Ev.ret GrB_Info.GrB_OUT_OF_MEMORY]
    else
      [Ev.transplantCp] ++ (if C_is_hyper then [Ev.transplantCh] else []) ++
        [Ev.setMagic, Ev.runWorkers, Ev.pruneCall pruneOk] ++
        (if pruneOk = false then [Ev.freeC, Ev.ret GrB_Info.GrB_OUT_OF_MEMORY]
         else [Ev.setChandleC, Ev.ret GrB_Info.GrB_SUCCESS]))

/-- Where one of the transplanted arrays (`Cp`, `Ch`) currently lives. -/
inductive ArrState
  | owned   -- handed to this call, not yet consumed
  | inC     -- transplanted into C (C->p / C->h)
  | freed
deriving DecidableEq

/-- Memory/handle state observed while the events run. -/
structure MemState where
  cp : ArrState
  ch : ArrState          -- meaningful only when C_is_hyper
  cLive : Bool           -- the C header and its fresh storage are allocated
  magic : Bool           -- C->magic == GB_MAGIC
  chandle : Bool         -- (*Chandle) == C (false: NULL)
  doubleFree : Bool
  retInfo : Option GrB_Info
deriving DecidableEq

/-- Before the call: both arrays are owned by the call (the caller has
relinquished them), nothing is allocated, `*Chandle` holds garbage. -/
def initMem : MemState :=
  { cp := ArrState.owned, ch := ArrState.owned, cLive := false,
    magic := false, chandle := true, doubleFree := false, retInfo := none }

/-- Effect of one event on the memory state.  Freeing `C` also frees the
arrays that were transplanted into it. -/
def MemState.step (s : MemState) : Ev → MemState
  | Ev.setChandleNull => { s with chandle := false }
  | Ev.createC ok => { s with cLive := ok }
  | Ev.freeCp =>
      if s.cp = ArrState.freed then { s with doubleFree := true }
      else { s with cp := ArrState.freed }
  | Ev.freeCh =>
      if s.ch = ArrState.freed then { s with doubleFree := true }
      else { s with ch := ArrState.freed }
  | Ev.transplantCp => { s with cp := ArrState.inC }
  | Ev.transplantCh => { s with ch := ArrState.inC }
  | Ev.setMagic => { s with magic := true }
  | Ev.runWorkers => s
  | Ev.pruneCall _ => s
  | Ev.freeC =>
      { s with cLive := false,
               cp := if s.cp = ArrState.inC then ArrState.freed else s.cp,
               ch := if s.ch = ArrState.inC then ArrState.freed else s.ch }
  | Ev.setChandleC => { s with chandle := true }
  | Ev.ret i => { s with retInfo := some i }

def runEvents (evs : List Ev) : MemState :=
  evs.foldl MemState.step initMem

/-- Final state of one `GB_add_phase2` invocation. -/
def GB_add_phase2_final (createOk pruneOk C_is_hyper : Bool) : MemState :=
  runEvents (GB_add_phase2_events createOk pruneOk C_is_hyper)

/-- **C3.** On every path the call disposes of `Cp` and `Ch` exactly once:
no double free ever happens, on success they live inside the returned matrix
(`C->p` / `C->h`), and on any failure they end up freed by the failure path
itself — in no outcome does the caller still own them. -/
theorem C3_transplant_ownership (createOk pruneOk C_is_hyper : Bool) :
    (GB_add_phase2_final createOk pruneOk C_is_hyper).doubleFree = false ∧
    (GB_add_phase2_final createOk pruneOk C_is_hyper).cp ≠ ArrState.owned ∧
    (C_is_hyper = true →
      (GB_add_phase2_final createOk pruneOk C_is_hyper).ch ≠ ArrState.owned) ∧
    ((GB_add_phase2_final createOk pruneOk C_is_hyper).retInfo =
        some GrB_Info.GrB_SUCCESS →
      (GB_add_phase2_final createOk pruneOk C_is_hyper).cp = ArrState.inC ∧
      (C_is_hyper = true →
        (GB_add_phase2_final createOk pruneOk C_is_hyper).ch = ArrState.inC)) ∧
    ((GB_add_phase2_final createOk pruneOk C_is_hyper).retInfo ≠
        some GrB_Info.GrB_SUCCESS →
      (GB_add_phase2_final createOk pruneOk C_is_hyper).cp = ArrState.freed ∧
      (C_is_hyper = true →
        (GB_add_phase2_final createOk pruneOk C_is_hyper).ch = ArrState.freed)) := by
  cases createOk <;> cases pruneOk <;> cases C_is_hyper <;> decide

/-- Witness for C3: when `GB_hypermatrix_prune` fails on a hypersparse C,
both transplanted arrays end up freed (through `GB_MATRIX_FREE (&C)`). -/
theorem C3_transplant_ownership_witness :
    (GB_add_phase2_final true false true).cp = ArrState.freed ∧
    (GB_add_phase2_final true false true).ch = ArrState.freed :=
  ⟨((C3_transplant_ownership true false true).2.2.2.2 (by decide)).1,
   ((C3_transplant_ownership true false true).2.2.2.2 (by decide)).2 rfl⟩

/-- True iff the event list marks C valid (`C->magic = GB_MAGIC`) at some
point strictly before the prune call happens. -/
def magicBeforePrune : List Ev → Bool
  | [] => false
  | Ev.setMagic :: r =>
      r.any (fun e => match e with | Ev.pruneCall _ => true | _ => false)
  | _ :: r => magicBeforePrune r

/-- True iff `(*Chandle) = C` happens before any successful prune call. -/
def handleSetEarly : List Ev → Bool
  | [] => false
  | Ev.setChandleC :: _ => true
  | Ev.pruneCall true :: _ => false
  | _ :: r => handleSetEarly r

/-- **C8 counterexample.** On the ordinary success path (`GB_create`
succeeds, prune succeeds, hypersparse C) the matrix is marked valid —
`C->magic = GB_MAGIC` at line 133 — strictly before `GB_hypermatrix_prune`
runs at line 264, so it is not true that the matrix is promoted to the valid
state only after pruning completes. -/
theorem C8_magic_before_prune_cex :
    magicBeforePrune (GB_add_phase2_events true true true) = true := by decide

/-- **C8 (amended).** The matrix is marked valid (`C->magic = GB_MAGIC`)
right after the transplant of `Cp`/`Ch`, before the merge workers and before
pruning, on every path on which it is created; what happens only after
pruning completes is the hand-off of C to the caller through `*Chandle`. -/
theorem C8_magic_timing (createOk pruneOk C_is_hyper : Bool) :
    handleSetEarly (GB_add_phase2_events createOk pruneOk C_is_hyper) = false ∧
    (createOk = true →
      magicBeforePrune (GB_add_phase2_events createOk pruneOk C_is_hyper) = true) := by
  cases createOk <;> cases pruneOk <;> cases C_is_hyper <;> decide

/-- Witness for C8 (amended) on the success path. -/
theorem C8_magic_timing_witness :
    magicBeforePrune (GB_add_phase2_events true true false) = true :=
  (C8_magic_timing true true false).2 rfl

/-- **C10.** `*Chandle` is `NULL` from the very first statement of the call;
it holds the constructed matrix exactly on the single success return, so a
failing call can never expose a partially built matrix through the handle. -/
theorem C10_chandle_on_failure (createOk pruneOk C_is_hyper : Bool) :
    ((GB_add_phase2_events createOk pruneOk C_is_hyper).head? =
      some Ev.setChandleNull) ∧
    ((GB_add_phase2_final createOk pruneOk C_is_hyper).chandle = true ↔
      (GB_add_phase2_final createOk pruneOk C_is_hyper).retInfo =
        some GrB_Info.GrB_SUCCESS) := by
  cases createOk <;> cases pruneOk <;> cases C_is_hyper <;> decide

/-- A hypersparse output as the pruning step sees it: the vector-identity
list (`C->h`) paired with each listed vector's entry segment (the slice of
`C->i`/`C->x` delimited by `C->p`). -/
abbrev HyperCols := List (Nat × List (Nat × Int))

/-- Modelled from the spec: `GB_hypermatrix_prune` (not in the snapshot) —
remove from the vector-identity list every vector whose segment is empty and
compact correspondingly, leaving non-empty vectors' storage untouched. -/
def GB_hypermatrix_prune (cols : HyperCols) : HyperCols :=
  cols.filter (fun v => !v.2.isEmpty)

/-- The matrix shell as the pruning step sees it. -/
structure CShell where
  is_hyper : Bool
  cols : HyperCols
deriving DecidableEq

/-- Modelled from the spec: pruning applies iff the output is in the
vector-identity-list (hypersparse) representation. -/
def pruneShell (C : CShell) : CShell :=
  if C.is_hyper then { C with cols := GB_hypermatrix_prune C.cols } else C

/-- Pruning never touches the concatenated row-index/value storage: empty
segments contribute nothing to it. -/
theorem join_prune (cols : HyperCols) :
    ((GB_hypermatrix_prune cols).map Prod.snd).flatten =
      (cols.map Prod.snd).flatten := by
  induction cols with
  | nil => rfl
  | cons v r ih =>
    obtain ⟨j, e⟩ := v
    cases e with
    | nil => simpa [GB_hypermatrix_prune] using ih
    | cons x xs =>
      simp only [GB_hypermatrix_prune] at ih ⊢
      simp [ih]

/-- A vector id survives pruning iff it labels a non-empty vector. -/
theorem mem_prune_ids (cols : HyperCols) (j : Nat) :
    j ∈ (GB_hypermatrix_prune cols).map Prod.fst ↔
      ∃ e, (j, e) ∈ cols ∧ e ≠ [] := by
  unfold GB_hypermatrix_prune
  constructor
  · intro h
    rcases List.mem_map.mp h with ⟨⟨a, b⟩, hmem, rfl⟩
    rcases List.mem_filter.mp hmem with ⟨hmem', hne⟩
    exact ⟨b, hmem', by simpa using hne⟩
  · rintro ⟨e, hmem, hne⟩
    exact List.mem_map.mpr ⟨⟨j, e⟩,
      List.mem_filter.mpr ⟨hmem, by simpa using hne⟩, rfl⟩

/-- **C7.** Iff the output is hypersparse, pruning removes exactly the empty
vectors from the vector-identity list (compacting it) while the row-index /
value storage of the non-empty vectors is untouched; a non-hypersparse C is
unchanged; and when the pruning step fails, the whole matrix C is released
and the out-of-memory error is returned. -/
theorem C7_prune (cols : HyperCols) (j : Nat) (C_is_hyper : Bool) :
    ((GB_hypermatrix_prune cols).map Prod.snd).flatten =
      (cols.map Prod.snd).flatten ∧
    (j ∈ (GB_hypermatrix_prune cols).map Prod.fst ↔
      ∃ e, (j, e) ∈ cols ∧ e ≠ []) ∧
    pruneShell { is_hyper := true, cols := cols } =
      { is_hyper := true, cols := GB_hypermatrix_prune cols } ∧
    pruneShell { is_hyper := false, cols := cols } =
      { is_hyper := false, cols := cols } ∧
    ((GB_add_phase2_final true false C_is_hyper).cLive = false ∧
      (GB_add_phase2_final true false C_is_hyper).retInfo =
        some GrB_Info.GrB_OUT_OF_MEMORY) :=
  ⟨join_prune cols, mem_prune_ids cols j, by simp [pruneShell],
   by simp [pruneShell], by cases C_is_hyper <;> decide⟩

/-- One entry of the `TaskList`: the output writes the task performs, fixed
in advance by the counting stage (each write is a flat output position with
the value the merge computes there). -/
structure GB_task_struct where
  writes : List (Nat × Int)
deriving DecidableEq

/-- The flat output positions a task writes. -/
def taskPos (t : GB_task_struct) : List Nat := t.writes.map Prod.fst

/-- Apply a list of writes to the shared output storage (modelled as a map
from flat position to value). -/
def applyWrites (s : Nat → Int) (ws : List (Nat × Int)) : Nat → Int :=
  ws.foldl (fun f w => fun k => if k = w.1 then w.2 else f k) s

/-- Execute one task of the parallel merge engine. -/
def applyTask (s : Nat → Int) (t : GB_task_struct) : Nat → Int :=
  applyWrites s t.writes

/-- Execute the task list in one particular order. -/
def runTasks (s : Nat → Int) (ts : List GB_task_struct) : Nat → Int :=
  ts.foldl applyTask s

/-- Two tasks with no common output position (the counting stage's
partition invariant: tasks own exclusive output sub-ranges). -/
def TasksDisjoint (t u : GB_task_struct) : Prop :=
  ∀ k ∈ taskPos t, k ∉ taskPos u

instance : DecidableRel TasksDisjoint := fun _ _ =>
  List.decidableBAll _ _

theorem applyWrites_of_not_mem {k : Nat} :
    ∀ {ws : List (Nat × Int)} {s : Nat → Int}, k ∉ ws.map Prod.fst →
      applyWrites s ws k = s k := by
  intro ws
  induction ws with
  | nil => intro s _; rfl
  | cons w r ih =>
    intro s hk
    have hk1 : k ≠ w.1 := fun h => hk (by simp [h])
    have hk2 : k ∉ r.map Prod.fst := fun h => hk (List.mem_cons_of_mem _ h)
    show applyWrites (fun j => if j = w.1 then w.2 else s j) r k = s k
    rw [ih hk2]
    exact if_neg hk1

theorem applyWrites_of_mem {k : Nat} :
    ∀ {ws : List (Nat × Int)} (s s' : Nat → Int), k ∈ ws.map Prod.fst →
      applyWrites s ws k = applyWrites s' ws k := by
  intro ws
  induction ws with
  | nil => intro s s' hk; exact absurd hk (by simp)
  | cons w r ih =>
    intro s s' hk
    by_cases hr : k ∈ r.map Prod.fst
    · exact ih _ _ hr
    · have hk1 : k = w.1 := by
        rcases List.mem_cons.mp hk with h | h
        · exact h
        · exact absurd h hr
      show applyWrites (fun j => if j = w.1 then w.2 else s j) r k =
        applyWrites (fun j => if j = w.1 then w.2 else s' j) r k
      rw [applyWrites_of_not_mem hr, applyWrites_of_not_mem hr,
        if_pos hk1, if_pos hk1]

/-- Two tasks with disjoint output positions commute. -/
theorem applyTask_comm {t u : GB_task_struct} (h : TasksDisjoint t u)
    (s : Nat → Int) :
    applyTask (applyTask s t) u = applyTask (applyTask s u) t := by
  funext k
  by_cases ht : k ∈ taskPos t
  · have hu : k ∉ taskPos u := h k ht
    rw [show applyTask (applyTask s t) u k = applyTask s t k from
          applyWrites_of_not_mem hu,
        show applyTask (applyTask s u) t k = applyTask s t k from
          applyWrites_of_mem _ _ ht]
  · by_cases hu : k ∈ taskPos u
    · rw [show applyTask (applyTask s t) u k = applyTask s u k from
            applyWrites_of_mem _ _ hu,
          show applyTask (applyTask s u) t k = applyTask s u k from
            applyWrites_of_not_mem ht]
    · rw [show applyTask (applyTask s t) u k = applyTask s t k from
            applyWrites_of_not_mem hu,
          show applyTask s t k = s k from applyWrites_of_not_mem ht,
          show applyTask (applyTask s u) t k = applyTask s u k from
            applyWrites_of_not_mem ht,
          show applyTask s u k = s k from applyWrites_of_not_mem hu]

/-- **C9.** Executing the same task list in any order (any permutation of
the precomputed `TaskList`) over the same inputs writes the identical output
storage, because each task's output positions are fixed in advance and
pairwise disjoint: the result is a function of the inputs and the task list
alone, not of scheduling. -/
theorem C9_task_order_determinism (ts ts' : List GB_task_struct)
    (hperm : List.Perm ts ts')
    (hdisj : List.Pairwise TasksDisjoint ts) :
    ∀ s : Nat → Int, runTasks s ts = runTasks s ts' := by
  have hsym : Symmetric TasksDisjoint := by
    intro t u h k hku hkt
    exact h k hkt hku
  revert hdisj
  induction hperm with
  | nil => intro _ s; rfl
  | cons x h ih =>
    intro hdisj s
    show runTasks (applyTask s x) _ = runTasks (applyTask s x) _
    exact ih (List.pairwise_cons.mp hdisj).2 (applyTask s x)
  | swap x y l =>
    intro hdisj s
    have hyx : TasksDisjoint y x :=
      (List.pairwise_cons.mp hdisj).1 x (List.mem_cons_self x l)
    show runTasks (applyTask (applyTask s y) x) l =
      runTasks (applyTask (applyTask s x) y) l
    rw [applyTask_comm hyx s]
  | trans h₁ _ ih₁ ih₂ =>
    intro hdisj s
    rw [ih₁ hdisj s, ih₂ ((h₁.pairwise_iff (fun hab => hsym hab)).mp hdisj) s]

/-- Witness for C9: two tasks writing positions 0 and 1 executed in either
order produce the same output storage. -/
theorem C9_task_order_determinism_witness :
    runTasks (fun _ => 0)
      [{ writes := [(0, 10)] }, { writes := [(1, 20)] }] =
    runTasks (fun _ => 0)
      [{ writes := [(1, 20)] }, { writes := [(0, 10)] }] :=
  C9_task_order_determinism _ _
    (List.Perm.swap { writes := [(1, 20)] } { writes := [(0, 10)] } [])
    (by decide) (fun _ => 0)

end GBAdd
